import Mathlib

/-!
Verification development for the edgeai-torchvision reference pipelines.

This file shallowly embeds the decision logic of
`references/classification/train.py` (weights-specifier parsing, EMA decay
computation, epoch truncation, checkpoint retention and best-accuracy
tracking, and the fatal-configuration-error sequencing of `main`) and of
`references/segmentation/dataset_utils.py` (the `COCOSegmentation` category
table, annotation filtering/remapping, image retention by annotation area,
and the polygon-mask merging that assigns the ignore label to overlapping
instances).  Real-valued quantities computed by the source (accuracies,
areas, decay factors, truncation factors) are modelled as rationals; Python
integers are modelled as `Nat`/`Int`; the `uint8` category values in the
mask merge are reduced modulo 256 where the source casts to `uint8`.
-/

/-! ## references/classification/train.py -/

/-- Embeds Python `w.lstrip()` as used in `split_weights`: drop leading
whitespace characters. -/
def lstrip (s : String) : String :=
  String.mk (s.toList.dropWhile fun c =>
    c == ' ' || c == '\t' || c == '\n' || c == '\r' || c == '\x0b' || c == '\x0c')

/-- Character-list worker for `splitComma`. -/
def splitCommaAux : List Char → List Char → List String
  | [], acc => [String.mk acc.reverse]
  | c :: cs, acc =>
    if c = ',' then String.mk acc.reverse :: splitCommaAux cs []
    else splitCommaAux cs (c :: acc)

/-- Embeds Python `weights_name.split(',')`: split at every comma, keeping
empty pieces. -/
def splitComma (s : String) : List String := splitCommaAux s.toList []

/-- Embeds Python `s.lower()` (ASCII lowering suffices for the names the
driver compares against). -/
def pyLower (s : String) : String := String.mk (s.toList.map Char.toLower)

/-- Embeds Python `s.startswith(pre)`. -/
def pyStartsWith (s pre : String) : Bool := List.isPrefixOf pre.toList s.toList

/-- Embeds `split_weights(weights_name)` from train.py.  The recognition of a
token as a URL or file path is delegated by the source to the external
`edgeai_torchmodelopt.xnn.utils.is_url_or_file`, modelled here as the
parameter `isUrlOrFile`.  The source splits on commas, left-strips each
token, appends recognised tokens to `weights_urls` and the rest to
`weights_enums` in order, and returns the heads of the two lists (or
`None`). -/
def split_weights (isUrlOrFile : String → Bool) (weights_name : String) :
    Option String × Option String :=
  let weights_list := splitComma weights_name
  let tokens := weights_list.map lstrip
  let weights_urls := tokens.filter isUrlOrFile
  let weights_enums := tokens.filter fun w => !isUrlOrFile w
  (weights_urls.head?, weights_enums.head?)

/-- Command-line configuration fields of train.py that the embedded logic
reads, with the types used after `argparse` parsing.  `weights` is `Option`
because its parser default is `None`.  `distributed` and `parallel` model
the truthiness of the corresponding integer flags. -/
structure Args where
  weights : Option String
  distributed : Bool
  parallel : Bool
  opt : String
  lr_scheduler : String
  lr_warmup_epochs : Nat
  lr_warmup_method : String
  pruning : Nat
  quantization : Nat
  test_only : Bool
  output_dir : String
  epochs : Nat
  start_epoch : Nat
  batch_size : Nat
  world_size : Nat
  model_ema : Bool
  model_ema_steps : Nat
  model_ema_decay : ℚ
  train_epoch_size_factor : ℚ
  val_epoch_size_factor : ℚ
  deriving Repr

/-- The defaults declared by `get_args_parser` for the fields of `Args`
(weights defaults to `None`; distributed and parallel default to `0`,
i.e. falsy). -/
def defaultArgs : Args where
  weights := none
  distributed := false
  parallel := false
  opt := "sgd"
  lr_scheduler := "steplr"
  lr_warmup_epochs := 0
  lr_warmup_method := "constant"
  pruning := 0
  quantization := 0
  test_only := false
  output_dir := "."
  epochs := 90
  start_epoch := 0
  batch_size := 32
  world_size := 1
  model_ema := false
  model_ema_steps := 32
  model_ema_decay := 99998 / 100000
  train_epoch_size_factor := 0
  val_epoch_size_factor := 0

/-- The EMA `alpha` computed in `main` when `--model-ema` is given:
`adjust = world_size * batch_size * model_ema_steps / epochs`,
`alpha = 1.0 - model_ema_decay`, then `alpha = min(1.0, alpha * adjust)`,
in the source's sequencing. -/
def emaAlpha (a : Args) : ℚ :=
  let adjust : ℚ := (a.world_size : ℚ) * (a.batch_size : ℚ) *
    (a.model_ema_steps : ℚ) / (a.epochs : ℚ)
  let alpha : ℚ := 1 - a.model_ema_decay
  min 1 (alpha * adjust)

/-- The decay handed to `utils.ExponentialMovingAverage` in `main`:
`decay = 1.0 - alpha`. -/
def emaDecayParam (a : Args) : ℚ := 1 - emaAlpha a

/-- The alpha formula as worded by the specification:
`min(1, (1 - model_ema_decay) * world_size * batch_size * model_ema_steps / epochs)`. -/
def emaAlphaFormula (d : ℚ) (w b s E : Nat) : ℚ :=
  min 1 ((1 - d) * (w : ℚ) * (b : ℚ) * (s : ℚ) / (E : ℚ))

/-- Python's built-in `round` on a rational value: round half to even. -/
def pythonRound (q : ℚ) : Int :=
  let f : Int := ⌊q⌋
  let r : ℚ := q - (f : ℚ)
  if r < 1/2 then f
  else if 1/2 < r then f + 1
  else if f % 2 = 0 then f else f + 1

/-- The break test at the bottom of the batch loops of `train_one_epoch` and
`evaluate`: `if factor and i >= round(factor * dataset_len): break`.
A Python float is truthy exactly when it is nonzero. -/
def sizeFactorBreak (factor : ℚ) (dataset_len i : Nat) : Bool :=
  decide (factor ≠ 0) && decide (pythonRound (factor * (dataset_len : ℚ)) ≤ (i : Int))

/-- One batch loop of train.py: starting at batch index `i` with `fuel`
batches remaining in the loader, process a batch, then break if the size
factor says so.  Returns the number of batches processed. -/
def batchLoopCount (factor : ℚ) (dataset_len : Nat) : Nat → Nat → Nat
  | 0, _ => 0
  | fuel + 1, i =>
    if sizeFactorBreak factor dataset_len i then 1
    else 1 + batchLoopCount factor dataset_len fuel (i + 1)

/-- Number of batches `train_one_epoch` consumes from a loader of
`dataset_len` batches under `train_epoch_size_factor = factor`. -/
def train_one_epoch_batches (factor : ℚ) (dataset_len : Nat) : Nat :=
  batchLoopCount factor dataset_len dataset_len 0

/-- Number of batches `evaluate` consumes from a loader of `dataset_len`
batches under `val_epoch_size_factor = factor`; the source's loop applies
the same break rule as `train_one_epoch`. -/
def evaluate_batches (factor : ℚ) (dataset_len : Nat) : Nat :=
  batchLoopCount factor dataset_len dataset_len 0

/-- Observable per-epoch effects of the tail of the training loop in `main`
(train.py lines 457-478): the accuracy retained in `epoch_acc`, whether the
numbered checkpoint/ONNX pair was written, whether the rolling best
checkpoint/ONNX pair was overwritten, and the updated `best_acc`. -/
structure EpochEffects where
  epochAcc : ℚ
  savedNumbered : Bool
  savedBest : Bool
  bestAcc : ℚ
  deriving Repr, DecidableEq

/-- The per-epoch tail of the training loop in `main`:
`epoch_acc = evaluate(model, ...)`; `if model_ema: epoch_acc =
evaluate(model_ema, ...)`; then under `if args.output_dir:` the numbered
save for `epoch == 0 or epoch >= (args.epochs - 10)` and the rolling best
save for `epoch_acc >= best_acc` (which also updates `best_acc`). -/
def epochStep (output_dir : String) (model_ema : Bool) (epochs epoch : Nat)
    (plainAcc emaAcc best_acc : ℚ) : EpochEffects :=
  let acc := plainAcc
  let acc := if model_ema then emaAcc else acc
  if output_dir ≠ "" then
    let num := decide (epoch = 0 ∨ (epochs : Int) - 10 ≤ (epoch : Int))
    if best_acc ≤ acc then
      ⟨acc, num, true, acc⟩
    else
      ⟨acc, num, false, best_acc⟩
  else
    ⟨acc, false, false, best_acc⟩

/-- The training loop of `main` from epoch `e` with `fuel` epochs remaining,
threading `best_acc` and recording, for each epoch, whether the numbered and
the rolling best checkpoints were written.  `plain e` and `emaAcc e` are the
accuracies returned by the two `evaluate` calls at epoch `e`. -/
def runFuel (output_dir : String) (model_ema : Bool) (epochs : Nat)
    (plain emaAcc : Nat → ℚ) : Nat → Nat → ℚ → List (Nat × Bool × Bool)
  | 0, _, _ => []
  | fuel + 1, e, best =>
    let r := epochStep output_dir model_ema epochs e (plain e) (emaAcc e) best
    (e, r.savedNumbered, r.savedBest) ::
      runFuel output_dir model_ema epochs plain emaAcc fuel (e + 1) r.bestAcc

/-- The whole training loop `for epoch in range(args.start_epoch,
args.epochs)` with `best_acc = 0` initially, as in `main`. -/
def trainRun (output_dir : String) (model_ema : Bool)
    (epochs start_epoch : Nat) (plain emaAcc : Nat → ℚ) :
    List (Nat × Bool × Bool) :=
  runFuel output_dir model_ema epochs plain emaAcc (epochs - start_epoch) start_epoch 0

/-- The accuracy that the loop actually compares against `best_acc`: the EMA
evaluation when EMA is enabled, else the plain evaluation. -/
def trackedAcc (model_ema : Bool) (plain emaAcc : Nat → ℚ) : Nat → ℚ :=
  fun e => if model_ema then emaAcc e else plain e

/-- The `best_acc` update: `if epoch_acc >= best_acc: best_acc = epoch_acc`. -/
def updateBest (b a : ℚ) : ℚ := if b ≤ a then a else b

/-- The best accuracy recorded so far when epoch `s + i` begins, having
started from `b` at epoch `s`. -/
def bestBefore (acc : Nat → ℚ) (b : ℚ) (s i : Nat) : ℚ :=
  ((List.range i).map fun j => acc (s + j)).foldl updateBest b

/-- Steps that `main` reaches, in order, before the training loop. -/
inductive Ev
  | weightsSplit
  | distInit
  | datasetBuilt
  | modelBuilt
  | optimizerBuilt
  | schedulerBuilt
  | trainLoopStarted
  deriving DecidableEq, Repr

/-- Fatal errors `main` can raise before the training loop. -/
inductive Err
  | noneSplitAttr
  | distAndParallel
  | legacyPruningAssert
  | invalidOptimizer
  | invalidScheduler
  | invalidWarmup
  deriving DecidableEq, Repr

/-- The optimizer-name test of `main`: `opt_name.startswith("sgd")`,
`opt_name == "rmsprop"`, or `opt_name == "adamw"`, on the lowercased name. -/
def validOptName (opt_name : String) : Bool :=
  pyStartsWith opt_name "sgd" || opt_name == "rmsprop" || opt_name == "adamw"

/-- The LR-scheduler-name test of `main`, on the lowercased name. -/
def validSchedName (s : String) : Bool :=
  s == "steplr" || s == "cosineannealinglr" || s == "exponentiallr"

/-- The control flow of `main` up to the start of the training loop, as the
ordered list of construction steps reached and the fatal error raised, if
any.  Calling `split_weights(args.weights)` with the parser default `None`
raises (`None` has no `split` method) before anything else; the
distributed/parallel conflict check sits between distributed initialization
and dataset construction; the legacy-pruning assertion and the optimizer
check follow model construction; the scheduler and warmup checks follow the
optimizer; `test_only` returns before the loop. -/
def mainTrace (a : Args) : List Ev × Option Err :=
  match a.weights with
  | none => ([], some Err.noneSplitAttr)
  | some _ =>
    let evs := [Ev.weightsSplit, Ev.distInit]
    if a.distributed && a.parallel then (evs, some Err.distAndParallel) else
    let evs := evs ++ [Ev.datasetBuilt, Ev.modelBuilt]
    if a.pruning == 1 then (evs, some Err.legacyPruningAssert) else
    if !validOptName (pyLower a.opt) then (evs, some Err.invalidOptimizer) else
    let evs := evs ++ [Ev.optimizerBuilt]
    if !validSchedName (pyLower a.lr_scheduler) then (evs, some Err.invalidScheduler) else
    if decide (0 < a.lr_warmup_epochs) &&
        !(a.lr_warmup_method == "linear" || a.lr_warmup_method == "constant") then
      (evs, some Err.invalidWarmup)
    else
    let evs := evs ++ [Ev.schedulerBuilt]
    if a.test_only then (evs, none)
    else (evs ++ [Ev.trainLoopStarted], none)

/-! ## references/segmentation/dataset_utils.py -/

/-- The fields of a COCO instance record that `COCOSegmentation` reads when
filtering and remapping; the pixel `area` is a JSON number, modelled as a
rational. -/
structure Ann where
  category_id : Nat
  area : ℚ
  deriving Repr, DecidableEq

/-- The category table built by `COCOSegmentation.__init__`: `num_classes`
defaults to 80 when `None`; for exactly 21 classes the fixed VOC-style ID
list is used, otherwise `range(num_classes)`. -/
def categoriesFor (num_classes : Option Nat) : List Nat :=
  let nc := num_classes.getD 80
  if nc = 21 then
    [0, 5, 2, 16, 9, 44, 6, 3, 17, 62, 21, 67, 18, 19, 4, 1, 64, 20, 63, 7, 72]
  else
    List.range nc

/-- The category filter shared by `_remove_images_without_annotations` and
`_filter_and_remap_categories`: keep records whose `category_id` is in the
category table. -/
def filterCats (categories : List Nat) (anno : List Ann) : List Ann :=
  anno.filter fun o => categories.contains o.category_id

/-- Embeds `COCOSegmentation._filter_and_remap_categories`: filter to the
category table, and when `remap` holds, replace each retained record's
`category_id` with `self.categories.index(category_id)`. -/
def filterRemapCats (categories : List Nat) (anno : List Ann)
    (remap : Bool) : List Ann :=
  let anno := filterCats categories anno
  if !remap then anno
  else anno.map fun o => { o with category_id := categories.indexOf o.category_id }

/-- Embeds `COCOSegmentation._has_valid_annotation`: empty lists are
invalid; otherwise the record areas must sum to strictly more than 1000. -/
def hasValidAnno (anno : List Ann) : Bool :=
  if anno.length = 0 then false
  else decide (1000 < (anno.map fun o => o.area).sum)

/-- Embeds `COCOSegmentation._remove_images_without_annotations`: for each
image id, load its records (`annsOf`), filter them to the category table
when the table is truthy (non-empty), and keep the id exactly when
`_has_valid_annotation` accepts the result. -/
def removeImagesWithoutAnns (categories : List Nat) (annsOf : Nat → List Ann)
    (img_ids : List Nat) : List Nat :=
  img_ids.filter fun img_id =>
    let anno := annsOf img_id
    let anno := if categories.isEmpty then anno else filterCats categories anno
    hasValidAnno anno

/-- The image-id list retained by `COCOSegmentation.__init__` (before
optional shuffling/truncation): the construction-time filtering of
`self.img_ids` through `_remove_images_without_annotations`. -/
def cocoSegImgIds (num_classes : Option Nat) (annsOf : Nat → List Ann)
    (img_ids : List Nat) : List Nat :=
  removeImagesWithoutAnns (categoriesFor num_classes) annsOf img_ids

/-- Embeds `COCOSegmentation._convert_polys_to_mask` at one pixel `p` of the
image plane `α`.  `masks` are the decoded per-instance binary masks (the
output of `_convert_poly_to_mask`, one per record) and `cats` the parallel
remapped category ids, cast to the mask `uint8` dtype (mod 256).  With no
records the target is the zero map; otherwise the target is the per-pixel
maximum of `mask * cat`, overwritten with 255 wherever the per-pixel mask
count exceeds 1. -/
def convertPolysToMask {α : Type} (masks : List (α → Bool)) (cats : List Nat)
    (p : α) : Nat :=
  if masks.isEmpty then 0
  else
    let vals := List.zipWith
      (fun (m : α → Bool) c => (if m p then 1 else 0) * (c % 256)) masks cats
    let coverage : Nat := (masks.map fun m => if m p then (1 : Nat) else 0).sum
    if 1 < coverage then 255 else vals.foldr max 0

/-- The configuration named by claim C7's concrete instance. -/
def emaClaimArgs : Args :=
  { defaultArgs with
      world_size := 2
      model_ema := true
      model_ema_decay := 99998 / 100000 }

/-- Default configuration with a concrete weights string and a conflicting
distributed-plus-parallel request. -/
def conflictArgs : Args :=
  { defaultArgs with
      weights := some "w"
      distributed := true
      parallel := true }

/-- Default configuration with a concrete weights string and an unknown
optimizer name. -/
def badOptArgs : Args :=
  { defaultArgs with
      weights := some "w"
      opt := "magic" }

/-! ## Helper lemmas -/

lemma head?_filter_eq_find? {α : Type} (p : α → Bool) (l : List α) :
    (l.filter p).head? = l.find? p := by
  induction l with
  | nil => rfl
  | cons x xs ih => by_cases h : p x <;> simp [List.filter_cons, List.find?_cons, h, ih]

lemma emaAlpha_eq_formula (a : Args) :
    emaAlpha a = emaAlphaFormula a.model_ema_decay a.world_size a.batch_size
      a.model_ema_steps a.epochs := by
  simp only [emaAlpha, emaAlphaFormula]
  exact congrArg (min 1) (by ring)

/-! ## Claims -/

/-- C1: in the per-epoch tail of the training loop, the accuracy retained in
`epoch_acc` (and compared against `best_acc` to decide whether the rolling
best checkpoint is overwritten) is the EMA evaluation result when EMA is
enabled — the plain evaluation's return value is discarded for best
tracking — and the plain accuracy when EMA is disabled. -/
theorem claimC1_ema_best_tracking (od : String) (me : Bool) (E e : Nat) (p m b : ℚ) :
    (epochStep od me E e p m b).epochAcc = (if me then m else p) ∧
    (epochStep od me E e p m b).savedBest =
      (decide (od ≠ "") && decide (b ≤ (if me then m else p))) := by
  unfold epochStep
  by_cases hod : od ≠ "" <;> by_cases h : b ≤ (if me then m else p) <;>
    simp [hod, h]

/-- C7: the EMA shadow model's decay is `1 - alpha` with
`alpha = min(1, (1 - model_ema_decay) * world_size * batch_size *
model_ema_steps / epochs)`, and at `world_size=2, batch_size=32,
model_ema_steps=32, epochs=90, model_ema_decay=0.99998` the computed alpha
equals `min(1, (1 - 0.99998) * 2 * 32 * 32 / 90)`. -/
theorem claimC7_ema_alpha (a : Args) :
    emaAlpha a = emaAlphaFormula a.model_ema_decay a.world_size a.batch_size
      a.model_ema_steps a.epochs ∧
    emaDecayParam a = 1 - emaAlphaFormula a.model_ema_decay a.world_size
      a.batch_size a.model_ema_steps a.epochs ∧
    emaAlpha emaClaimArgs =
      min 1 ((1 - 99998 / 100000) * 2 * 32 * 32 / 90) := by
  refine ⟨emaAlpha_eq_formula a, ?_, ?_⟩
  · unfold emaDecayParam
    rw [emaAlpha_eq_formula]
  · rw [emaAlpha_eq_formula]
    norm_num [emaAlphaFormula, emaClaimArgs, defaultArgs]

/-- C6: `split_weights` returns, independently of token order, the first
left-stripped comma token recognised as a URL or file path (else `None`)
paired with the first token not so recognised (else `None`); a single
bare-enum token `"imagenet_v1"` yields `(None, "imagenet_v1")`, and a
specifier whose tokens are all enum-like yields `(None, first token)`. -/
theorem claimC6_split_weights (p : String → Bool) (s : String) :
    (split_weights p s).1 = ((splitComma s).map lstrip).find? p ∧
    (split_weights p s).2 = ((splitComma s).map lstrip).find? (fun w => !p w) ∧
    (p "imagenet_v1" = false →
      split_weights p "imagenet_v1" = (none, some "imagenet_v1")) ∧
    ((∀ w ∈ (splitComma s).map lstrip, p w = false) →
      split_weights p s = (none, ((splitComma s).map lstrip).head?)) := by
  refine ⟨?_, ?_, ?_, ?_⟩
  · simp only [split_weights]
    exact head?_filter_eq_find? p _
  · simp only [split_weights]
    exact head?_filter_eq_find? _ _
  · intro hp
    have h : (splitComma "imagenet_v1").map lstrip = ["imagenet_v1"] := rfl
    simp only [split_weights, h]
    simp [List.filter_cons, hp]
  · intro hall
    simp only [split_weights]
    have h1 : ((splitComma s).map lstrip).filter p = [] :=
      List.filter_eq_nil_iff.mpr (by intro w hw; simp [hall w hw])
    have h2 : ((splitComma s).map lstrip).filter (fun w => !p w) =
        (splitComma s).map lstrip :=
      List.filter_eq_self.mpr (by intro w hw; simp [hall w hw])
    rw [h1, h2]
    rfl

/-- C6 witness at the concrete recogniser that accepts nothing and the
specifier string `"imagenet_v1"`. -/
theorem claimC6_witness :
    (∀ w ∈ (splitComma "imagenet_v1").map lstrip, (fun _ : String => false) w = false) ∧
    split_weights (fun _ : String => false) "imagenet_v1" = (none, some "imagenet_v1") :=
  ⟨by decide, (claimC6_split_weights (fun _ => false) "imagenet_v1").2.2.1 rfl⟩

/-- C10: with the parser default `weights = None`, `main` fails in
`split_weights` (splitting a `None` value) before distributed
initialization, dataset loading, or model construction. -/
theorem claimC10_default_weights_error :
    defaultArgs.weights = none ∧
    mainTrace defaultArgs = ([], some Err.noneSplitAttr) ∧
    Ev.distInit ∉ (mainTrace defaultArgs).1 ∧
    Ev.datasetBuilt ∉ (mainTrace defaultArgs).1 ∧
    Ev.modelBuilt ∉ (mainTrace defaultArgs).1 := by
  have h : mainTrace defaultArgs = ([], some Err.noneSplitAttr) := rfl
  refine ⟨rfl, h, ?_, ?_, ?_⟩ <;> rw [h] <;> simp

/-- C8: a configuration with both distributed and parallel enabled makes
`main` fail before dataset or model construction, and a configuration whose
lowercased optimizer name is not an `sgd` prefix, `rmsprop`, or `adamw`
makes `main` fail after model construction and before the training loop;
neither error path reaches any later step. -/
theorem claimC8_config_errors (a : Args) :
    (∀ w, a.weights = some w → a.distributed = true → a.parallel = true →
      (mainTrace a).2 = some Err.distAndParallel ∧
      Ev.datasetBuilt ∉ (mainTrace a).1 ∧ Ev.modelBuilt ∉ (mainTrace a).1) ∧
    (∀ w, a.weights = some w → (a.distributed && a.parallel) = false →
      (a.pruning == 1) = false → validOptName (pyLower a.opt) = false →
      (mainTrace a).2 = some Err.invalidOptimizer ∧
      Ev.modelBuilt ∈ (mainTrace a).1 ∧
      Ev.trainLoopStarted ∉ (mainTrace a).1) := by
  constructor
  · intro w hw hd hp
    simp [mainTrace, hw, hd, hp]
  · intro w hw hdp hpr hopt
    simp [mainTrace, hw, hdp, hpr, hopt]

/-- C8 witness: the distributed-and-parallel conflict and an unknown
optimizer name on otherwise-default configurations. -/
theorem claimC8_witness :
    (mainTrace conflictArgs).2 = some Err.distAndParallel ∧
    (mainTrace badOptArgs).2 = some Err.invalidOptimizer := by
  constructor
  · exact ((claimC8_config_errors conflictArgs).1 "w" rfl rfl rfl).1
  · exact ((claimC8_config_errors badOptArgs).2 "w" rfl rfl rfl (by decide)).1

lemma batchLoopCount_zero_factor (n : Nat) :
    ∀ fuel i, batchLoopCount 0 n fuel i = fuel
  | 0, _ => rfl
  | fuel + 1, i => by
    have hb : sizeFactorBreak 0 n i = false := by simp [sizeFactorBreak]
    rw [batchLoopCount, hb]
    simp only [Bool.false_eq_true, if_false]
    rw [batchLoopCount_zero_factor n fuel (i + 1)]
    omega

lemma batchLoopCount_closed (factor : ℚ) (n : Nat) (hf : factor ≠ 0) :
    ∀ fuel i, batchLoopCount factor n fuel i =
      min fuel ((pythonRound (factor * (n : ℚ)) - (i : Int)).toNat + 1)
  | 0, _ => by simp [batchLoopCount]
  | fuel + 1, i => by
    by_cases h : pythonRound (factor * (n : ℚ)) ≤ (i : Int)
    · have hb : sizeFactorBreak factor n i = true := by
        simp [sizeFactorBreak, hf, h]
      rw [batchLoopCount, hb]
      simp only [if_true]
      omega
    · have hb : sizeFactorBreak factor n i = false := by
        simp [sizeFactorBreak, hf, h]
      rw [batchLoopCount, hb]
      simp only [Bool.false_eq_true, if_false]
      rw [batchLoopCount_closed factor n hf fuel (i + 1)]
      have hc : ((i + 1 : Nat) : Int) = (i : Int) + 1 := by push_cast; ring
      rw [hc]
      omega

/-- C9: with a nonzero size factor, the batch loops of `train_one_epoch` and
`evaluate` stop after the first batch whose index reaches
`round(factor * dataset_len)`, so they consume
`min(dataset_len, round(factor * dataset_len) + 1)` batches; with factor
zero (falsy) the full loader is consumed. -/
theorem claimC9_epoch_truncation (factor : ℚ) (n : Nat) :
    (factor ≠ 0 →
      train_one_epoch_batches factor n =
        min n ((pythonRound (factor * (n : ℚ))).toNat + 1) ∧
      evaluate_batches factor n =
        min n ((pythonRound (factor * (n : ℚ))).toNat + 1)) ∧
    (factor = 0 →
      train_one_epoch_batches factor n = n ∧ evaluate_batches factor n = n) := by
  constructor
  · intro hf
    have h := batchLoopCount_closed factor n hf n 0
    simp only [Nat.cast_zero, Int.sub_zero] at h
    exact ⟨h, h⟩
  · intro hf
    subst hf
    exact ⟨batchLoopCount_zero_factor n n 0, batchLoopCount_zero_factor n n 0⟩

/-- C9 witness: a loader of 5 batches with factor one half is cut to 3
batches (the Python round of 2.5 is 2, banker's rounding), and factor 0
consumes all 7 batches. -/
theorem claimC9_witness :
    ((1 : ℚ) / 2 ≠ 0 ∧
      train_one_epoch_batches ((1 : ℚ) / 2) 5 =
        min 5 ((pythonRound ((1 : ℚ) / 2 * (5 : ℚ))).toNat + 1)) ∧
    evaluate_batches 0 7 = 7 := by
  refine ⟨⟨by norm_num, ?_⟩, ?_⟩
  · exact ((claimC9_epoch_truncation ((1 : ℚ) / 2) 5).1 (by norm_num)).1
  · exact ((claimC9_epoch_truncation 0 7).2 rfl).2

lemma indicatorSum_eq_count {α : Type} (masks : List (α → Bool)) (p : α) :
    (masks.map fun m => if m p then (1 : Nat) else 0).sum =
      (masks.filter fun m => m p).length := by
  induction masks with
  | nil => rfl
  | cons m ms ih => by_cases h : m p <;> simp [List.filter_cons, h, ih, Nat.add_comm]

lemma foldrMax_zipWith_uncovered {α : Type} (q : α) :
    ∀ (masks : List (α → Bool)) (cats : List Nat), (∀ m ∈ masks, m q = false) →
      (List.zipWith (fun (m : α → Bool) c => (if m q then 1 else 0) * (c % 256))
        masks cats).foldr max 0 = 0
  | [], _, _ => rfl
  | _ :: _, [], _ => rfl
  | m :: ms, c :: cs, h => by
    have hm : m q = false := h m (by simp)
    have ih := foldrMax_zipWith_uncovered q ms cs fun m' hm' => h m' (by simp [hm'])
    rw [List.zipWith_cons_cons, List.foldr_cons, ih]
    simp [hm]

/-- C3: in the merged label map of `_convert_polys_to_mask`, a pixel covered
by two or more decoded instance masks (of any categories) gets the reserved
ignore value 255, overriding the per-pixel maximum of `mask * category`
otherwise assigned, and a pixel covered by no mask gets 0. -/
theorem claimC3_overlap_ignore {α : Type} (masks : List (α → Bool))
    (cats : List Nat) (p q : α)
    (hp : 2 ≤ (masks.filter fun m => m p).length)
    (hq : ∀ m ∈ masks, m q = false) :
    convertPolysToMask masks cats p = 255 ∧
    convertPolysToMask masks cats q = 0 := by
  constructor
  · have hne2 : masks.isEmpty = false := by
      cases masks with
      | nil => simp at hp
      | cons m ms => rfl
    have hcov : 1 < (masks.map fun m => if m p then (1 : Nat) else 0).sum := by
      rw [indicatorSum_eq_count]
      exact hp
    simp only [convertPolysToMask, hne2, Bool.false_eq_true, if_false]
    rw [if_pos hcov]
  · by_cases hne : masks.isEmpty
    · simp [convertPolysToMask, hne]
    · have hne2 : masks.isEmpty = false := by simpa using hne
      have hcov : (masks.map fun m => if m q then (1 : Nat) else 0).sum = 0 := by
        rw [indicatorSum_eq_count, List.length_eq_zero]
        exact List.filter_eq_nil_iff.mpr fun m hm => by simp [hq m hm]
      simp only [convertPolysToMask, hne2, Bool.false_eq_true, if_false, hcov]
      rw [if_neg (by decide)]
      exact foldrMax_zipWith_uncovered q masks cats hq

/-- C3 witness: two masks both covering pixel 0 (categories 3 and 4) make
pixel 0 ignore-valued, and pixel 5, covered by neither, is background. -/
theorem claimC3_witness :
    (2 ≤ ([fun x : Nat => decide (x = 0), fun x : Nat => decide (x ≤ 1)].filter
      fun m => m 0).length) ∧
    convertPolysToMask [fun x : Nat => decide (x = 0), fun x : Nat => decide (x ≤ 1)]
      [3, 4] 0 = 255 ∧
    convertPolysToMask [fun x : Nat => decide (x = 0), fun x : Nat => decide (x ≤ 1)]
      [3, 4] 5 = 0 := by
  refine ⟨by decide, ?_, ?_⟩
  · exact (claimC3_overlap_ignore _ [3, 4] 0 5 (by decide) (by decide)).1
  · exact (claimC3_overlap_ignore _ [3, 4] 0 5 (by decide) (by decide)).2

/-- C4: with `num_classes = 21`, the category table is the fixed 21-ID list;
category 44 remaps to class index 5; the filtered-and-remapped record list
corresponds one to one with the records whose category ID is in the table,
each remapped to its 0-based position (records with IDs outside the table
are dropped); and an image all of whose records have IDs outside the table
is excluded from the dataset by the constructor-time filtering. -/
theorem claimC4_category_remap (anno : List Ann) (annsOf : Nat → List Ann)
    (img_ids : List Nat) (i : Nat)
    (hout : ∀ o ∈ annsOf i, (categoriesFor (some 21)).contains o.category_id = false) :
    categoriesFor (some 21) =
      [0, 5, 2, 16, 9, 44, 6, 3, 17, 62, 21, 67, 18, 19, 4, 1, 64, 20, 63, 7, 72] ∧
    (categoriesFor (some 21)).indexOf 44 = 5 ∧
    List.Forall₂ (fun o' o =>
        o.category_id = (categoriesFor (some 21)).indexOf o'.category_id ∧
        o.area = o'.area)
      (filterCats (categoriesFor (some 21)) anno)
      (filterRemapCats (categoriesFor (some 21)) anno true) ∧
    (∀ o ∈ filterCats (categoriesFor (some 21)) anno,
      (categoriesFor (some 21)).contains o.category_id = true) ∧
    i ∉ cocoSegImgIds (some 21) annsOf img_ids := by
  refine ⟨rfl, by decide, ?_, ?_, ?_⟩
  · simp only [filterRemapCats, Bool.not_true, Bool.false_eq_true, if_false]
    rw [List.forall₂_map_right_iff]
    rw [List.forall₂_same]
    intro o _
    exact ⟨rfl, rfl⟩
  · intro o ho
    exact (List.mem_filter.mp ho).2
  · intro hmem
    have hpred := (List.mem_filter.mp hmem).2
    have hempty : (categoriesFor (some 21)).isEmpty = false := rfl
    have hfil : filterCats (categoriesFor (some 21)) (annsOf i) = [] :=
      List.filter_eq_nil_iff.mpr fun o ho => by
        have h2 := hout o ho
        simp_all
    rw [hempty] at hpred
    simp only [Bool.false_eq_true, if_false, hfil] at hpred
    exact absurd hpred (by decide)

/-- C4 witness: an image whose only record has original COCO category 300
(absent from the 21-class table) is excluded at construction. -/
theorem claimC4_witness :
    (∀ o ∈ (fun _ : Nat => [(⟨300, 5000⟩ : Ann)]) 7,
      (categoriesFor (some 21)).contains o.category_id = false) ∧
    7 ∉ cocoSegImgIds (some 21) (fun _ : Nat => [(⟨300, 5000⟩ : Ann)]) [7] :=
  ⟨by decide,
    (claimC4_category_remap [] (fun _ : Nat => [(⟨300, 5000⟩ : Ann)]) [7] 7
      (by decide)).2.2.2.2⟩

/-- C5: an image id is retained by `_remove_images_without_annotations`
exactly when its category-filtered record list is non-empty and the
filtered areas sum to strictly more than 1000; in particular a single
in-scope record of area exactly 1000 is excluded and one of area 1001 is
retained. -/
theorem claimC5_area_threshold (categories : List Nat) (annsOf : Nat → List Ann)
    (img_ids : List Nat) (i : Nat)
    (hne : categories.isEmpty = false) (hi : i ∈ img_ids) :
    (i ∈ removeImagesWithoutAnns categories annsOf img_ids ↔
      (filterCats categories (annsOf i) ≠ [] ∧
        1000 < ((filterCats categories (annsOf i)).map fun o => o.area).sum)) ∧
    (∀ o : Ann, categories.contains o.category_id = true → o.area = 1000 →
      i ∉ removeImagesWithoutAnns categories (fun _ => [o]) img_ids) ∧
    (∀ o : Ann, categories.contains o.category_id = true → o.area = 1001 →
      i ∈ removeImagesWithoutAnns categories (fun _ => [o]) img_ids) := by
  have hiff : ∀ anns2 : Nat → List Ann,
      i ∈ removeImagesWithoutAnns categories anns2 img_ids ↔
        (filterCats categories (anns2 i) ≠ [] ∧
          1000 < ((filterCats categories (anns2 i)).map fun o => o.area).sum) := by
    intro anns2
    simp only [removeImagesWithoutAnns, List.mem_filter, hne, Bool.false_eq_true,
      if_false]
    rcases h : filterCats categories (anns2 i) with _ | ⟨a, l⟩
    · simp [hasValidAnno, h, hi]
    · simp [hasValidAnno, h, hi]
  refine ⟨hiff annsOf, ?_, ?_⟩
  · intro o hco harea hmem
    have h := (hiff (fun _ => [o])).mp hmem
    have hco2 : o.category_id ∈ categories := by simpa using hco
    have hfo : filterCats categories [o] = [o] := by
      simp [filterCats, List.filter_cons, hco2]
    rw [hfo] at h
    simp only [List.map_cons, List.map_nil, List.sum_cons, List.sum_nil, harea] at h
    exact absurd h.2 (by norm_num)
  · intro o hco harea
    refine (hiff (fun _ => [o])).mpr ?_
    have hco2 : o.category_id ∈ categories := by simpa using hco
    have hfo : filterCats categories [o] = [o] := by
      simp [filterCats, List.filter_cons, hco2]
    rw [hfo]
    refine ⟨by simp, ?_⟩
    simp only [List.map_cons, List.map_nil, List.sum_cons, List.sum_nil, harea]
    norm_num

/-- C5 witness: with category table `[3]`, a single category-3 record of
area 1000 is excluded while area 1001 is retained. -/
theorem claimC5_witness :
    0 ∉ removeImagesWithoutAnns [3] (fun _ => [(⟨3, 1000⟩ : Ann)]) [0] ∧
    0 ∈ removeImagesWithoutAnns [3] (fun _ => [(⟨3, 1001⟩ : Ann)]) [0] := by
  constructor
  · exact (claimC5_area_threshold [3] (fun _ => [(⟨3, 1500⟩ : Ann)]) [0] 0 rfl
      (by decide)).2.1 ⟨3, 1000⟩ rfl rfl
  · exact (claimC5_area_threshold [3] (fun _ => [(⟨3, 1500⟩ : Ann)]) [0] 0 rfl
      (by decide)).2.2 ⟨3, 1001⟩ rfl rfl

lemma epochStep_output (od : String) (hod : od ≠ "") (me : Bool) (E e : Nat)
    (plain emaAcc : Nat → ℚ) (b : ℚ) :
    epochStep od me E e (plain e) (emaAcc e) b =
      ⟨trackedAcc me plain emaAcc e,
       decide (e = 0 ∨ (E : Int) - 10 ≤ (e : Int)),
       decide (b ≤ trackedAcc me plain emaAcc e),
       updateBest b (trackedAcc me plain emaAcc e)⟩ := by
  simp only [epochStep, trackedAcc, updateBest]
  rw [if_pos hod]
  by_cases h : b ≤ (if me then emaAcc e else plain e) <;> simp [h]

lemma bestBefore_succ (acc : Nat → ℚ) (b : ℚ) (e i : Nat) :
    bestBefore acc b e (i + 1) = bestBefore acc (updateBest b (acc e)) (e + 1) i := by
  simp only [bestBefore]
  rw [List.range_succ_eq_map, List.map_cons, List.map_map, List.foldl_cons]
  rw [Nat.add_zero]
  have hfun : ((fun j => acc (e + j)) ∘ Nat.succ) = fun j => acc (e + 1 + j) := by
    funext j
    simp only [Function.comp_apply, Nat.succ_eq_add_one]
    congr 1
    ring
  rw [hfun]

lemma runFuel_eq (od : String) (hod : od ≠ "") (me : Bool) (E : Nat)
    (plain emaAcc : Nat → ℚ) :
    ∀ (fuel e : Nat) (b : ℚ),
      runFuel od me E plain emaAcc fuel e b =
        (List.range fuel).map fun (i : Nat) =>
          (e + i,
           decide (e + i = 0 ∨ (E : Int) - 10 ≤ ((e + i : Nat) : Int)),
           decide (bestBefore (trackedAcc me plain emaAcc) b e i ≤
             trackedAcc me plain emaAcc (e + i))) := by
  intro fuel
  induction fuel with
  | zero => intro e b; simp [runFuel]
  | succ fuel ih =>
    intro e b
    simp only [runFuel, epochStep_output od hod me E e plain emaAcc b]
    rw [ih (e + 1) (updateBest b (trackedAcc me plain emaAcc e))]
    have hfun : ((fun (i : Nat) =>
        (e + i,
         decide (e + i = 0 ∨ (E : Int) - 10 ≤ ((e + i : Nat) : Int)),
         decide (bestBefore (trackedAcc me plain emaAcc) b e i ≤
           trackedAcc me plain emaAcc (e + i)))) ∘ Nat.succ) =
      fun (i : Nat) =>
        (e + 1 + i,
         decide (e + 1 + i = 0 ∨ (E : Int) - 10 ≤ ((e + 1 + i : Nat) : Int)),
         decide (bestBefore (trackedAcc me plain emaAcc)
             (updateBest b (trackedAcc me plain emaAcc e)) (e + 1) i ≤
           trackedAcc me plain emaAcc (e + 1 + i))) := by
      funext i
      simp only [Function.comp_apply, Nat.succ_eq_add_one]
      rw [bestBefore_succ]
      have he : e + (i + 1) = e + 1 + i := by ring
      rw [he]
    rw [List.range_succ_eq_map, List.map_cons, List.map_map, hfun]
    simp [bestBefore]

/-- C2: in a run with output enabled from epoch 0 over `epochs` epochs, the
numbered checkpoint and numbered ONNX export are written exactly at epoch 0
and at the epochs from `epochs - 10` on (for 90 epochs: 0 and 80 to 89), and
the rolling best checkpoint/export is overwritten exactly at the epochs
whose tracked accuracy is greater than or equal to the best accuracy
recorded so far (starting from 0), so a tie overwrites in favour of the
newer epoch. -/
theorem claimC2_checkpoint_retention (od : String) (hod : od ≠ "") (me : Bool)
    (E : Nat) (plain emaAcc : Nat → ℚ) :
    trainRun od me E 0 plain emaAcc =
      (List.range E).map fun (e : Nat) =>
        (e,
         decide (e = 0 ∨ (E : Int) - 10 ≤ (e : Int)),
         decide (bestBefore (trackedAcc me plain emaAcc) 0 0 e ≤
           trackedAcc me plain emaAcc e)) := by
  unfold trainRun
  rw [Nat.sub_zero]
  rw [runFuel_eq od hod me E plain emaAcc E 0]
  simp

/-- C2 witness: a two-epoch run with output directory `"."`. -/
theorem claimC2_witness :
    ("." ≠ "") ∧
    trainRun "." false 2 0 (fun _ => (1 : ℚ)) (fun _ => (0 : ℚ)) =
      (List.range 2).map fun (e : Nat) =>
        (e,
         decide (e = 0 ∨ (2 : Int) - 10 ≤ (e : Int)),
         decide (bestBefore
             (trackedAcc false (fun _ => (1 : ℚ)) (fun _ => (0 : ℚ))) 0 0 e ≤
           trackedAcc false (fun _ => (1 : ℚ)) (fun _ => (0 : ℚ)) e)) :=
  ⟨by decide, claimC2_checkpoint_retention "." (by decide) false 2 _ _⟩
